import Mathlib

/-!
# Verification of the Topology JSON Builder core (`src/app.py`)

A shallow embedding of the graph/type model and recursive serializer of
`app.py`.  Python dicts are modelled as ordered association lists
(`List (String × _)`) with Python's insertion semantics (assigning to an
existing key updates it in place keeping its position, assigning to a new
key appends at the end).  JSON-ish property values are modelled by `Value`.
The nondeterministic id generation (`str(uuid.uuid4())[:8]`) is modelled by
passing the freshly generated id as an explicit argument.  The unbounded
Python recursion of `build_json` is modelled with explicit fuel: `none`
means the Python recursion would not have finished within that depth.
-/

/-- A JSON-like value: the payload of node properties and of the exported
document.  Defaults in the configuration are strings or lists; property
patches and nested serializer output use the other constructors. -/
inductive Value where
  | str : String → Value
  | num : Int → Value
  | list : List Value → Value
  | obj : List (String × Value) → Value

/-- Python `d.get(k)` on an ordered dict modelled as an association list. -/
def dictGet {α : Type} (d : List (String × α)) (k : String) : Option α :=
  (d.find? (fun p => p.1 == k)).map (fun p => p.2)

/-- Python `k in d`. -/
def dictMem {α : Type} (d : List (String × α)) (k : String) : Bool :=
  d.any (fun p => p.1 == k)

/-- Python `d[k] = v`: update in place when the key exists (keeping its
position), otherwise append at the end. -/
def dictInsert {α : Type} (d : List (String × α)) (k : String) (v : α) :
    List (String × α) :=
  if dictMem d k then d.map (fun p => if p.1 == k then (k, v) else p)
  else d ++ [(k, v)]

/-- Python `d.update(patch)`: insert every binding of `patch` in order. -/
def dictUpdate {α : Type} (d patch : List (String × α)) : List (String × α) :=
  patch.foldl (fun acc p => dictInsert acc p.1 p.2) d

/-- Python `d.pop(k, None)` (the resulting dict): drop every binding of `k`. -/
def dictPop {α : Type} (d : List (String × α)) (k : String) : List (String × α) :=
  d.filter (fun p => p.1 != k)

/-- One property definition of a node type's schema (`props` entries of
`DEFAULT_CONFIG`): field type (`text`/`number`/`select`/`multiselect`),
display label, optional declared default, allowed options. -/
structure PropDef where
  type : String
  label : String
  default : Option Value
  options : List String

/-- A node type of the registry: display label, cosmetic colour/icon, and
the ordered property schema. -/
structure NodeType where
  label : String
  color : String
  icon : String
  props : List (String × PropDef)

/-- A graph node (`self.nodes` entries). -/
structure Node where
  id : String
  type : String
  label : String
  x : Int
  y : Int
  props : List (String × Value)

/-- A directed containment edge (`self.edges` entries); `from`/`to` in the
Python source, renamed because `from` is a Lean keyword. -/
structure Edge where
  id : String
  fromId : String
  toId : String
deriving DecidableEq

/-- The whole mutable application state (`class AppState`). -/
structure AppState where
  node_types : List (String × NodeType)
  rules : List (String × List String)
  nodes : List Node
  edges : List Edge
  selected_id : Option String
  v : Nat

/-- The `nodeTypes` block of `DEFAULT_CONFIG`. -/
def defaultNodeTypes : List (String × NodeType) :=
  [("network",
    { label := "Network", color := "#38bdf8", icon := "⬡",
      props :=
        [("cidr", ⟨"text", "CIDR Block", some (Value.str "10.0.0.0/24"), []⟩),
         ("vlan", ⟨"number", "VLAN ID", some (Value.str ""), []⟩),
         ("gateway", ⟨"text", "Gateway", some (Value.str ""), []⟩),
         ("zone", ⟨"select", "Zone", some (Value.str "private"),
           ["private", "public", "dmz", "management"]⟩)] }),
   ("vm",
    { label := "VM", color := "#4ade80", icon := "▣",
      props :=
        [("cpu", ⟨"select", "CPU", some (Value.str "2 vCPU"),
           ["1 vCPU", "2 vCPU", "4 vCPU", "8 vCPU", "16 vCPU", "32 vCPU"]⟩),
         ("ram", ⟨"select", "RAM", some (Value.str "4 GB"),
           ["512 MB", "1 GB", "2 GB", "4 GB", "8 GB", "16 GB", "32 GB", "64 GB"]⟩),
         ("os", ⟨"select", "OS", some (Value.str "Ubuntu 22.04"),
           ["Ubuntu 24.04", "Ubuntu 22.04", "Debian 12", "Debian 11",
            "CentOS Stream 9", "Rocky Linux 9", "AlmaLinux 9",
            "Windows Server 2022", "Windows Server 2019"]⟩),
         ("ip", ⟨"text", "IP Address", some (Value.str ""), []⟩),
         ("roles", ⟨"multiselect", "Ansible Roles", some (Value.list []),
           ["common", "security-baseline", "ufw", "fail2ban",
            "nginx", "apache2", "caddy", "docker", "containerd",
            "kubernetes-node", "postgresql", "mysql", "mariadb",
            "mongodb", "redis", "elasticsearch", "kafka", "rabbitmq",
            "prometheus-node-exporter", "grafana-agent",
            "certbot", "vault-agent", "consul-agent"]⟩)] }),
   ("storage",
    { label := "Storage", color := "#fbbf24", icon := "◬",
      props :=
        [("size", ⟨"select", "Size", some (Value.str "100 GB"),
           ["10 GB", "50 GB", "100 GB", "500 GB", "1 TB", "5 TB"]⟩),
         ("type", ⟨"select", "Type", some (Value.str "SSD"),
           ["SSD", "NVMe", "HDD", "Object", "NFS"]⟩),
         ("replication", ⟨"select", "Replication", some (Value.str "none"),
           ["none", "2x", "3x", "geo-redundant"]⟩)] })]

/-- The `rules` block of `DEFAULT_CONFIG`. -/
def defaultRules : List (String × List String) :=
  [("network", ["vm"]), ("vm", ["storage"])]

/-- Constructor `AppState.__init__`: deep copies of the default config, empty graph,
no selection, version 0. -/
def initState : AppState :=
  { node_types := defaultNodeTypes, rules := defaultRules,
    nodes := [], edges := [], selected_id := none, v := 0 }

namespace AppState

/-- Method `AppState.get_node`: first node with the given id, if any. -/
def get_node (s : AppState) (node_id : String) : Option Node :=
  s.nodes.find? (fun n => n.id == node_id)

/-- Method `AppState.add_node`.  The fresh id (`str(uuid.uuid4())[:8]`)
is passed in as `newId`.  Fails (Python `raise ValueError`) when the type
key is not in the registry; otherwise returns the new node and the new
state (node appended, version bumped). -/
def add_node (s : AppState) (newId type_key : String) :
    Except String (Node × AppState) :=
  match dictGet s.node_types type_key with
  | none => Except.error ("Unknown node type: '" ++ type_key ++ "'")
  | some td =>
    let idx := (s.nodes.filter (fun n => n.type == type_key)).length + 1
    let props := td.props.map (fun p =>
      (p.1, p.2.default.getD
        (if p.2.type == "multiselect" then Value.list [] else Value.str "")))
    let col : Int := Int.ofNat s.nodes.length
    let node : Node :=
      { id := newId, type := type_key,
        label := td.label ++ " " ++ toString idx,
        x := 180 + (col % 5) * 70, y := 100 + (col / 5) * 60,
        props := props }
    Except.ok (node, { s with nodes := s.nodes ++ [node], v := s.v + 1 })

/-- The loop body of `AppState.update_node`: update the first node with the
given id (`none` when no node matches, in which case Python falls off the
loop without bumping). -/
def updateNodeList (node_id : String) (label : Option String)
    (props : Option (List (String × Value))) : List Node → Option (List Node)
  | [] => none
  | n :: rest =>
    if n.id == node_id then
      some ({ n with
              label := label.getD n.label,
              props := match props with
                       | some p => dictUpdate n.props p
                       | none => n.props } :: rest)
    else (updateNodeList node_id label props rest).map (fun r => n :: r)

/-- Method `AppState.update_node`: patch label/props of the first matching node and
bump the version; silently no-op (no bump) when the id is unknown. -/
def update_node (s : AppState) (node_id : String) (label : Option String)
    (props : Option (List (String × Value))) : AppState :=
  match updateNodeList node_id label props s.nodes with
  | some ns => { s with nodes := ns, v := s.v + 1 }
  | none => s

/-- The loop body of `AppState.move_node`. -/
def moveNodeList (node_id : String) (x y : Int) : List Node → Option (List Node)
  | [] => none
  | n :: rest =>
    if n.id == node_id then some ({ n with x := x, y := y } :: rest)
    else (moveNodeList node_id x y rest).map (fun r => n :: r)

/-- Method `AppState.move_node`: update position of the first matching node and
bump; silent no-op (no bump) when the id is unknown. -/
def move_node (s : AppState) (node_id : String) (x y : Int) : AppState :=
  match moveNodeList node_id x y s.nodes with
  | some ns => { s with nodes := ns, v := s.v + 1 }
  | none => s

/-- Method `AppState.delete_node`: drop the node, cascade-drop every edge touching
it, clear the selection when it pointed at it, and bump unconditionally. -/
def delete_node (s : AppState) (node_id : String) : AppState :=
  { s with
    nodes := s.nodes.filter (fun n => n.id != node_id),
    edges := s.edges.filter (fun e => e.fromId != node_id && e.toId != node_id),
    selected_id := if s.selected_id == some node_id then none else s.selected_id,
    v := s.v + 1 }

/-- Python expression `self.rules.get(key, [])`. -/
def rulesGet (s : AppState) (key : String) : List String :=
  (dictGet s.rules key).getD []

/-- Whether some edge already has this ordered (from, to) pair. -/
def edgeExists (s : AppState) (from_id to_id : String) : Bool :=
  s.edges.any (fun e => e.fromId == from_id && e.toId == to_id)

/-- Method `AppState.add_edge`.  The fresh id is passed in as `newId`.  Returns the
new state together with Python's `(edge | None, err)` pair; the state is
unchanged on every failure. -/
def add_edge (s : AppState) (newId from_id to_id : String) :
    AppState × Option Edge × String :=
  match s.get_node from_id, s.get_node to_id with
  | some fn, some tn =>
    if (s.rulesGet fn.type).contains tn.type then
      if s.edgeExists from_id to_id then
        (s, none, "Connection already exists")
      else
        let edge : Edge := { id := newId, fromId := from_id, toId := to_id }
        ({ s with edges := s.edges ++ [edge], v := s.v + 1 }, some edge, "")
    else
      let fl := ((dictGet s.node_types fn.type).map NodeType.label).getD fn.type
      let tl := ((dictGet s.node_types tn.type).map NodeType.label).getD tn.type
      (s, none, tl ++ " cannot be nested inside " ++ fl)
  | _, _ => (s, none, "Node not found")

/-- Method `AppState.delete_edge`: drop the edge if present, bump unconditionally. -/
def delete_edge (s : AppState) (edge_id : String) : AppState :=
  { s with edges := s.edges.filter (fun e => e.id != edge_id), v := s.v + 1 }

/-- Method `AppState.import_config`: replace whichever of the two tables the body
provides; bump unconditionally. -/
def import_config (s : AppState) (nodeTypes : Option (List (String × NodeType)))
    (rules : Option (List (String × List String))) : AppState :=
  { s with node_types := nodeTypes.getD s.node_types,
           rules := rules.getD s.rules, v := s.v + 1 }

/-- The edge loop of `build_json.to_obj`: fold over the edge list, and for
every edge leaving `node` whose target node exists, insert one entry keyed
by the child's label holding the recursively built child object (`rec`).
`none` propagates a recursion that ran out of fuel. -/
def toObjGo (s : AppState) (rec : Node → Option (List (String × Value)))
    (node : Node) : List (String × Value) → List Edge →
    Option (List (String × Value))
  | obj, [] => some obj
  | obj, e :: rest =>
    if e.fromId == node.id then
      match s.get_node e.toId with
      | some child =>
        match rec child with
        | some cobj =>
          toObjGo s rec node (dictInsert obj child.label (Value.obj cobj)) rest
        | none => none
      | none => toObjGo s rec node obj rest
    else toObjGo s rec node obj rest

/-- Inner function `build_json.to_obj` with explicit fuel: start from `{"type": node.type}`,
merge the stored properties, then append one entry per outgoing edge.
Python's unbounded recursion returns exactly the `some` results; `none`
means the recursion would still be running at that depth. -/
def to_obj (s : AppState) : Nat → Node → Option (List (String × Value))
  | 0, _ => none
  | fuel + 1, node =>
    toObjGo s (fun child => to_obj s fuel child) node
      (dictUpdate [("type", Value.str node.type)] node.props) s.edges

/-- The child ids (`child_ids = {e["to"] for e in self.edges}`) and root
filter of `build_json`: nodes with no incoming edge, in insertion order. -/
def roots (s : AppState) : List Node :=
  s.nodes.filter (fun n => !(s.edges.any (fun e => e.toId == n.id)))

/-- The root comprehension of `build_json`: build each root's object and
insert it keyed by the root's label, in node insertion order. -/
def buildRoots (s : AppState) (fuel : Nat) :
    List Node → List (String × Value) → Option (List (String × Value))
  | [], acc => some acc
  | n :: rest, acc =>
    match to_obj s fuel n with
    | some obj => buildRoots s fuel rest (dictInsert acc n.label (Value.obj obj))
    | none => none

/-- Method `AppState.build_json` with explicit fuel bounding the recursion depth. -/
def build_json (s : AppState) (fuel : Nat) : Option (List (String × Value)) :=
  buildRoots s fuel s.roots []

end AppState

/-- Route `PUT /api/node/{nid}/select`: set the selection to the given id —
no existence check of any kind — and bump. -/
def put_node_select (s : AppState) (nid : String) : AppState :=
  { s with selected_id := some nid, v := s.v + 1 }

/-- Route `DELETE /api/node/deselect`: clear the selection and bump. -/
def delete_select (s : AppState) : AppState :=
  { s with selected_id := none, v := s.v + 1 }

/-- Route `PUT /api/settings/type/{key}`: upsert the type and make sure the
rule table has an entry for it; bump. -/
def put_type (s : AppState) (key : String) (body : NodeType) : AppState :=
  { s with node_types := dictInsert s.node_types key body,
           rules := if dictMem s.rules key then s.rules else s.rules ++ [(key, [])],
           v := s.v + 1 }

/-- Route `DELETE /api/settings/type/{key}`: pop the type from the registry,
pop it as a rule parent, strip it from every remaining allowed-child list;
bump. -/
def del_type (s : AppState) (key : String) : AppState :=
  { s with node_types := dictPop s.node_types key,
           rules := (dictPop s.rules key).map
             (fun p => (p.1, p.2.filter (fun x => x != key))),
           v := s.v + 1 }

/-- Route `PUT /api/settings/rules`: replace the whole rule table; bump. -/
def put_rules (s : AppState) (body : List (String × List String)) : AppState :=
  { s with rules := body, v := s.v + 1 }

/-- One API call, as dispatched by the FastAPI routes.  Fresh ids that
Python draws from `uuid.uuid4()` appear as explicit arguments. -/
inductive Op where
  | getConfig
  | getState
  | getJson
  | getSettings
  | postNode (newId type_key : String)
  | patchNode (nid : String) (label : Option String)
      (props : Option (List (String × Value)))
  | putNodePos (nid : String) (x y : Int)
  | putNodeSelect (nid : String)
  | deselect
  | deleteNodeOp (nid : String)
  | postEdge (newId from_id to_id : String)
  | deleteEdgeOp (eid : String)
  | postSettings (nodeTypes : Option (List (String × NodeType)))
      (rules : Option (List (String × List String)))
  | putType (key : String) (body : NodeType)
  | delType (key : String)
  | putRules (body : List (String × List String))

/-- The state transition of each route.  Read routes return data without
touching the state; `POST /api/node` catches the `ValueError` of
`add_node` (HTTP 400), leaving the state unchanged on failure. -/
def applyOp (s : AppState) : Op → AppState
  | Op.getConfig => s
  | Op.getState => s
  | Op.getJson => s
  | Op.getSettings => s
  | Op.postNode newId tk =>
    match s.add_node newId tk with
    | Except.ok r => r.2
    | Except.error _ => s
  | Op.patchNode nid label props => s.update_node nid label props
  | Op.putNodePos nid x y => s.move_node nid x y
  | Op.putNodeSelect nid => put_node_select s nid
  | Op.deselect => delete_select s
  | Op.deleteNodeOp nid => s.delete_node nid
  | Op.postEdge newId f t => (s.add_edge newId f t).1
  | Op.deleteEdgeOp eid => s.delete_edge eid
  | Op.postSettings nt r => s.import_config nt r
  | Op.putType key body => put_type s key body
  | Op.delType key => del_type s key
  | Op.putRules body => put_rules s body

/-- Run a sequence of API calls. -/
def runOps (s : AppState) : List Op → AppState
  | [] => s
  | op :: rest => runOps (applyOp s op) rest

/-- Invariant I1: every edge's endpoints reference nodes currently present. -/
def WF (s : AppState) : Prop :=
  ∀ e ∈ s.edges,
    (∃ n ∈ s.nodes, n.id = e.fromId) ∧ (∃ n ∈ s.nodes, n.id = e.toId)

/-- The success condition of `add_edge`: both endpoints resolve, the target
type is allowed under the source type, and no edge with this ordered
(from, to) pair exists yet. -/
def AddEdgeOk (s : AppState) (from_id to_id : String) : Prop :=
  ∃ fn tn, s.get_node from_id = some fn ∧ s.get_node to_id = some tn ∧
    (s.rulesGet fn.type).contains tn.type = true ∧
    s.edgeExists from_id to_id = false

/-- The condition `AddEdgeOk` as a boolean. -/
def addEdgeOkBool (s : AppState) (from_id to_id : String) : Bool :=
  match s.get_node from_id, s.get_node to_id with
  | some fn, some tn =>
    (s.rulesGet fn.type).contains tn.type && !(s.edgeExists from_id to_id)
  | _, _ => false

/-- Whether this call, run in this state, bumps the version counter: reads
never do; deletes, selection changes and configuration edits always do;
node update/move only when the id exists; `add_node` only when the type key
is known; `add_edge` only when the edge is actually created. -/
def opBumps (s : AppState) : Op → Bool
  | Op.getConfig => false
  | Op.getState => false
  | Op.getJson => false
  | Op.getSettings => false
  | Op.postNode _ tk => (dictGet s.node_types tk).isSome
  | Op.patchNode nid _ _ => s.nodes.any (fun n => n.id == nid)
  | Op.putNodePos nid _ _ => s.nodes.any (fun n => n.id == nid)
  | Op.postEdge _ f t => addEdgeOkBool s f t
  | _ => true

/-- Number of version bumps along a run. -/
def bumpCount (s : AppState) : List Op → Nat
  | [] => 0
  | op :: rest =>
    (if opBumps s op then 1 else 0) + bumpCount (applyOp s op) rest

/-- Modelled from the spec: which calls the spec counts as "mutating"
(everything except the read-only snapshot/config/document exports). -/
def isMutating : Op → Bool
  | Op.getConfig => false
  | Op.getState => false
  | Op.getJson => false
  | Op.getSettings => false
  | _ => true

/-- Modelled from the spec: "the count of mutating calls that were
invoked", the quantity the original claim equates with `version`. -/
def mutatingCount (ops : List Op) : Nat :=
  (ops.filter isMutating).length

/-- One serializer recursion step: `a` has an outgoing edge to `b` and a
node with id `b` exists, so `to_obj` on a node with id `a` recurses into
the node resolved for `b`. -/
def EdgeStep (s : AppState) (a b : String) : Prop :=
  (∃ e ∈ s.edges, e.fromId = a ∧ e.toId = b) ∧ ∃ n ∈ s.nodes, n.id = b

/-- Modelled from the spec's wording for the serializer: "one nested entry
per outgoing Edge from this Node, keyed by the child's label, in the order
the Edges were created" — as a standalone list, to be compared with the
entries `to_obj` actually appends. -/
def childEntries (s : AppState) (rec : Node → Option (List (String × Value)))
    (node : Node) : List Edge → Option (List (String × Value))
  | [] => some []
  | e :: rest =>
    if e.fromId == node.id then
      match s.get_node e.toId with
      | some child =>
        match rec child with
        | some cobj =>
          (childEntries s rec node rest).map
            (fun l => (child.label, Value.obj cobj) :: l)
        | none => none
      | none => childEntries s rec node rest
    else childEntries s rec node rest

/-- The spec's concrete scenario: a network node, a vm node, a storage
node, with network→vm and vm→storage edges. -/
def scenarioOps : List Op :=
  [Op.postNode "n1" "network", Op.postNode "v1" "vm",
   Op.postEdge "e1" "n1" "v1", Op.postNode "st1" "storage",
   Op.postEdge "e2" "v1" "st1"]

/-- The state after running the spec's concrete scenario. -/
def scState : AppState := runOps initState scenarioOps

/-- A state holding a single storage node: its schema stores a property
literally named `type`, which collides with the serializer's distinguished
type field. -/
def stOnlyState : AppState := runOps initState [Op.postNode "st1" "storage"]

/-- A registry whose single type has a multi-choice field with a non-empty
declared default. -/
def multiDefType : NodeType :=
  { label := "T", color := "#000000", icon := "*",
    props := [("roles",
      ⟨"multiselect", "Roles", some (Value.list [Value.str "a"]), ["a", "b"]⟩)] }

/-- A state whose registry is just `multiDefType`. -/
def multiDefState : AppState :=
  { node_types := [("t", multiDefType)], rules := [], nodes := [], edges := [],
    selected_id := none, v := 0 }

/-- Two nodes forming an isolated containment cycle a⇄b: both have an
incoming edge, so neither is a root. -/
def cyc2State : AppState :=
  { node_types := [], rules := [], nodes := [⟨"a", "t", "A", 0, 0, []⟩,
      ⟨"b", "t", "B", 0, 0, []⟩],
    edges := [⟨"e1", "a", "b"⟩, ⟨"e2", "b", "a"⟩], selected_id := none, v := 0 }

/-- A state with one network node and one vm node and no edge yet. -/
def nvState : AppState :=
  runOps initState [Op.postNode "n1" "network", Op.postNode "v1" "vm"]


/-! ## Helper lemmas -/

theorem get_node_mem (s : AppState) (x : String) (n : Node)
    (h : s.get_node x = some n) : n ∈ s.nodes ∧ n.id = x := by
  unfold AppState.get_node at h
  refine ⟨List.mem_of_find?_eq_some h, ?_⟩
  have := List.find?_some h
  simpa using this

theorem nest_msg_ne_empty (a b : String) :
    a ++ " cannot be nested inside " ++ b ≠ "" := by
  intro h
  have hlen := congrArg String.length h
  rw [String.length_append, String.length_append] at hlen
  have h1 : 0 < (" cannot be nested inside " : String).length := by decide
  have h2 : ("" : String).length = 0 := by decide
  omega

theorem dictGet_dictPop {α : Type} (d : List (String × α)) (k : String) :
    dictGet (dictPop d k) k = none := by
  simp only [dictGet, dictPop, Option.map_eq_none', List.find?_eq_none]
  intro p hp
  have h2 := (List.mem_filter.mp hp).2
  rw [bne_iff_ne] at h2
  simpa [beq_iff_eq] using h2

theorem dictGet_keyfix_map_none {α β : Type} (d : List (String × α))
    (f : String × α → β) (k : String) (h : dictGet d k = none) :
    dictGet (d.map (fun p => (p.1, f p))) k = none := by
  unfold dictGet at h ⊢
  rw [Option.map_eq_none'] at h ⊢
  rw [List.find?_map, Option.map_eq_none']
  exact h

theorem find?_key_of_mem_nodup {α : Type} (l : List (String × α))
    (p : String × α) (hmem : p ∈ l) (hnd : (l.map Prod.fst).Nodup) :
    l.find? (fun q => q.1 == p.1) = some p := by
  induction l with
  | nil => cases hmem
  | cons q rest ih =>
    rw [List.map_cons, List.nodup_cons] at hnd
    rcases List.mem_cons.mp hmem with rfl | hmem2
    · simp [List.find?_cons_of_pos]
    · have hne : ¬(q.1 == p.1) = true := by
        simp only [beq_iff_eq]
        intro he
        exact hnd.1 (he ▸ List.mem_map_of_mem Prod.fst hmem2)
      rw [@List.find?_cons_of_neg _ (fun r => r.1 == p.1) q rest hne]
      exact ih hmem2 hnd.2

theorem dictGet_map_keys {α β : Type} (l : List (String × α))
    (f : String × α → β) (k : String) :
    dictGet (l.map (fun p => (p.1, f p))) k =
      (l.find? (fun q => q.1 == k)).map f := by
  unfold dictGet
  rw [List.find?_map, Option.map_map]
  rfl

theorem addEdgeOk_iff_bool (s : AppState) (f t : String) :
    AddEdgeOk s f t ↔ addEdgeOkBool s f t = true := by
  unfold AddEdgeOk addEdgeOkBool
  cases hf : s.get_node f <;> cases ht : s.get_node t <;>
    simp [Bool.and_eq_true, Bool.not_eq_true']

/-! ## Claim theorems -/

/-- C10: `select(id)` performs no existence check: for every id string,
including one matching no node, it sets `selectedId` to that id, bumps the
version by exactly 1, and leaves the node (and edge) lists unchanged, so
`selectedId` may reference a nonexistent node. -/
theorem select_no_existence_check (s : AppState) (nid : String) :
    (put_node_select s nid).selected_id = some nid ∧
    (put_node_select s nid).v = s.v + 1 ∧
    (put_node_select s nid).nodes = s.nodes ∧
    (put_node_select s nid).edges = s.edges :=
  ⟨rfl, rfl, rfl, rfl⟩

/-- C9: deleting a type removes it from the registry, removes it as a rule
parent, and strips it from every remaining allowed-child list, while the
node and edge lists stay untouched (existing nodes of that type survive as
orphaned references). -/
theorem delType_purges_rules (s : AppState) (key : String) :
    dictGet (del_type s key).node_types key = none ∧
    dictGet (del_type s key).rules key = none ∧
    (∀ p ∈ (del_type s key).rules, key ∉ p.2) ∧
    (del_type s key).nodes = s.nodes ∧
    (del_type s key).edges = s.edges := by
  refine ⟨dictGet_dictPop _ _, dictGet_keyfix_map_none _ _ _ (dictGet_dictPop _ _),
    ?_, rfl, rfl⟩
  intro p hp hkey
  obtain ⟨q, _, rfl⟩ := List.mem_map.mp hp
  have h2 := (List.mem_filter.mp hkey).2
  rw [bne_iff_ne] at h2
  exact h2 rfl

/-- The error branch of `add_node` fires exactly when the type key is not
in the registry. -/
theorem add_node_error_iff (s : AppState) (newId tk : String) :
    (∃ msg, s.add_node newId tk = Except.error msg) ↔
      dictGet s.node_types tk = none := by
  unfold AppState.add_node
  cases dictGet s.node_types tk <;> simp

/-- The success branch of `add_node`, with the shape of the new node. -/
theorem add_node_success (s : AppState) (newId tk : String) (td : NodeType)
    (h : dictGet s.node_types tk = some td) :
    ∃ node s2, s.add_node newId tk = Except.ok (node, s2) ∧
      node.label = td.label ++ " " ++
        toString ((s.nodes.filter (fun n => n.type == tk)).length + 1) ∧
      node.type = tk ∧ node.id = newId ∧
      node.props = td.props.map (fun p => (p.1, p.2.default.getD
        (if p.2.type == "multiselect" then Value.list [] else Value.str ""))) ∧
      s2.nodes = s.nodes ++ [node] ∧ s2.edges = s.edges ∧ s2.v = s.v + 1 := by
  unfold AppState.add_node
  rw [h]
  exact ⟨_, _, rfl, rfl, rfl, rfl, rfl, rfl, rfl, rfl⟩

/-- C5: `addNode` fails exceptionally exactly when the type key is absent
from the registry; on success the label is the type's display label, a
space, and (current count of nodes of that type) + 1. -/
theorem addNode_unknown_type_and_label (s : AppState) (newId tk : String) :
    ((∃ msg, s.add_node newId tk = Except.error msg) ↔
      dictGet s.node_types tk = none) ∧
    (∀ td, dictGet s.node_types tk = some td →
      ∃ node s2, s.add_node newId tk = Except.ok (node, s2) ∧
        node.label = td.label ++ " " ++
          toString ((s.nodes.filter (fun n => n.type == tk)).length + 1)) := by
  refine ⟨add_node_error_iff s newId tk, ?_⟩
  intro td h
  obtain ⟨node, s2, h1, h2, -⟩ := add_node_success s newId tk td h
  exact ⟨node, s2, h1, h2⟩

theorem addNode_unknown_type_and_label_witness :
    (∃ msg, initState.add_node "x9" "zz" = Except.error msg) ∧
    (∃ node s2, initState.add_node "n1" "network" = Except.ok (node, s2) ∧
      node.label = "Network 1") := by
  constructor
  · exact (addNode_unknown_type_and_label initState "x9" "zz").1.mpr rfl
  · obtain ⟨node, s2, h1, h2⟩ :=
      (addNode_unknown_type_and_label initState "n1" "network").2 _ rfl
    exact ⟨node, s2, h1, by rw [h2]; rfl⟩

/-- C6 (amended): on `addNode` the properties mapping has one entry per
schema field, in schema order; each field with a declared default is
initialized to that default — including multi-choice fields — while a
field without a declared default gets the empty list when multi-choice and
the empty string otherwise. -/
theorem addNode_props_initialization (s : AppState) (newId tk : String)
    (td : NodeType) (h : dictGet s.node_types tk = some td) :
    ∃ node s2, s.add_node newId tk = Except.ok (node, s2) ∧
      node.props.map Prod.fst = td.props.map Prod.fst ∧
      node.props = td.props.map (fun p => (p.1, p.2.default.getD
        (if p.2.type == "multiselect" then Value.list [] else Value.str ""))) ∧
      (∀ p ∈ td.props, (td.props.map Prod.fst).Nodup →
        dictGet node.props p.1 = some (p.2.default.getD
          (if p.2.type == "multiselect" then Value.list [] else Value.str ""))) := by
  obtain ⟨node, s2, hok, -, -, -, hp, -⟩ := add_node_success s newId tk td h
  refine ⟨node, s2, hok, ?_, hp, ?_⟩
  · rw [hp, List.map_map]; rfl
  · intro p hmem hnd
    rw [hp, dictGet_map_keys, find?_key_of_mem_nodup td.props p hmem hnd]
    rfl

/-- C6 counterexample: a multi-choice field with a declared non-empty
default is NOT initialized to the empty list — it gets the declared
default, refuting "every multi-choice field is initialized to an empty
ordered list". -/
theorem addNode_multiselect_default_cex :
    ∃ node s2, multiDefState.add_node "x1" "t" = Except.ok (node, s2) ∧
      dictGet node.props "roles" = some (Value.list [Value.str "a"]) ∧
      Value.list [Value.str "a"] ≠ Value.list [] := by
  refine ⟨_, _, rfl, rfl, ?_⟩
  intro h
  injection h with h2
  simp at h2

theorem addNode_props_initialization_witness :
    ∃ node s2, stOnlyState.add_node "x2" "storage" = Except.ok (node, s2) ∧
      node.props.map Prod.fst = ["size", "type", "replication"] ∧
      dictGet node.props "size" = some (Value.str "100 GB") := by
  obtain ⟨node, s2, hok, hkeys, -, hget⟩ :=
    addNode_props_initialization stOnlyState "x2" "storage" _ rfl
  refine ⟨node, s2, hok, by rw [hkeys]; rfl, ?_⟩
  have := hget ("size", ⟨"select", "Size", some (Value.str "100 GB"),
    ["10 GB", "50 GB", "100 GB", "500 GB", "1 TB", "5 TB"]⟩)
    (by simp) (by decide)
  simpa using this

/-- Case analysis of `add_edge`: the success path appends the edge and
bumps; every failure path returns the state unchanged plus a non-empty
message. -/
theorem add_edge_cases (s : AppState) (newId from_id to_id : String) :
    (AddEdgeOk s from_id to_id →
      s.add_edge newId from_id to_id =
        ({ s with edges := s.edges ++ [Edge.mk newId from_id to_id],
                  v := s.v + 1 },
         some (Edge.mk newId from_id to_id), "")) ∧
    (¬ AddEdgeOk s from_id to_id →
      (s.add_edge newId from_id to_id).1 = s ∧
      (s.add_edge newId from_id to_id).2.1 = none ∧
      (s.add_edge newId from_id to_id).2.2 ≠ "") := by
  unfold AppState.add_edge
  cases hf : s.get_node from_id with
  | none =>
    cases ht : s.get_node to_id with
    | none =>
      refine ⟨?_, fun _ => ⟨rfl, rfl,
        (by decide : ("Node not found" : String) ≠ "")⟩⟩
      rintro ⟨fn, tn, hfn, -, -, -⟩
      rw [hf] at hfn
      cases hfn
    | some tn =>
      refine ⟨?_, fun _ => ⟨rfl, rfl,
        (by decide : ("Node not found" : String) ≠ "")⟩⟩
      rintro ⟨fn, tn', hfn, -, -, -⟩
      rw [hf] at hfn
      cases hfn
  | some fn =>
    cases ht : s.get_node to_id with
    | none =>
      refine ⟨?_, fun _ => ⟨rfl, rfl,
        (by decide : ("Node not found" : String) ≠ "")⟩⟩
      rintro ⟨fn', tn', -, htn', -, -⟩
      rw [ht] at htn'
      cases htn'
    | some tn =>
      dsimp only
      cases hr : (s.rulesGet fn.type).contains tn.type with
      | false =>
        rw [if_neg (show ¬(false = true) by decide)]
        constructor
        · rintro ⟨fn', tn', hfn', htn', hr', -⟩
          rw [hf, Option.some_inj] at hfn'
          rw [ht, Option.some_inj] at htn'
          subst hfn'
          subst htn'
          rw [hr] at hr'
          cases hr'
        · intro _
          exact ⟨rfl, rfl, nest_msg_ne_empty _ _⟩
      | true =>
        rw [if_pos (show true = true from rfl)]
        cases he : s.edgeExists from_id to_id with
        | true =>
          rw [if_pos (show true = true from rfl)]
          constructor
          · rintro ⟨fn', tn', hfn', htn', -, he'⟩
            rw [he] at he'
            cases he'
          · intro _
            exact ⟨rfl, rfl,
              (by decide : ("Connection already exists" : String) ≠ "")⟩
        | false =>
          rw [if_neg (show ¬(false = true) by decide)]
          constructor
          · intro _
            rfl
          · intro hno
            exact absurd ⟨fn, tn, hf, ht, hr, he⟩ hno

/-- C1: for every `add_edge` attempt, the edge (bearing the freshly drawn
id) is appended to the edge list, with a version bump, exactly when both
endpoints resolve, the target's type is allowed under the source's type in
the rule table, and no edge with the same ordered (from, to) pair exists;
otherwise the state is unchanged and an error value — a `none` edge plus a
non-empty message, not an exception — is returned. -/
theorem addEdge_success_iff (s : AppState) (newId from_id to_id : String) :
    (AddEdgeOk s from_id to_id →
      s.add_edge newId from_id to_id =
        ({ s with edges := s.edges ++ [Edge.mk newId from_id to_id],
                  v := s.v + 1 },
         some (Edge.mk newId from_id to_id), "")) ∧
    (¬ AddEdgeOk s from_id to_id →
      (s.add_edge newId from_id to_id).1 = s ∧
      (s.add_edge newId from_id to_id).2.1 = none ∧
      (s.add_edge newId from_id to_id).2.2 ≠ "") :=
  add_edge_cases s newId from_id to_id

theorem addEdge_success_iff_witness :
    (nvState.add_edge "e1" "n1" "v1" =
      ({ nvState with edges := nvState.edges ++ [Edge.mk "e1" "n1" "v1"],
                      v := nvState.v + 1 },
       some (Edge.mk "e1" "n1" "v1"), "")) ∧
    ((scState.add_edge "e9" "st1" "n1").1 = scState ∧
     (scState.add_edge "e9" "st1" "n1").2.1 = none ∧
     (scState.add_edge "e9" "st1" "n1").2.2 ≠ "") :=
  ⟨(addEdge_success_iff nvState "e1" "n1" "v1").1 ⟨_, _, rfl, rfl, rfl, rfl⟩,
   (addEdge_success_iff scState "e9" "st1" "n1").2
     (by rw [addEdgeOk_iff_bool]; decide)⟩

theorem updateNodeList_ids (node_id : String) (label : Option String)
    (props : Option (List (String × Value))) :
    ∀ ns ns2, AppState.updateNodeList node_id label props ns = some ns2 →
      ns2.map Node.id = ns.map Node.id := by
  intro ns
  induction ns with
  | nil => intro ns2 h; cases h
  | cons n rest ih =>
    intro ns2 h
    simp only [AppState.updateNodeList] at h
    by_cases hid : (n.id == node_id) = true
    · rw [if_pos hid] at h
      cases h
      rfl
    · rw [if_neg hid] at h
      cases hm : AppState.updateNodeList node_id label props rest with
      | none => rw [hm] at h; cases h
      | some r =>
        rw [hm] at h
        cases h
        simp only [List.map_cons]
        rw [ih r hm]

theorem moveNodeList_ids (node_id : String) (x y : Int) :
    ∀ ns ns2, AppState.moveNodeList node_id x y ns = some ns2 →
      ns2.map Node.id = ns.map Node.id := by
  intro ns
  induction ns with
  | nil => intro ns2 h; cases h
  | cons n rest ih =>
    intro ns2 h
    simp only [AppState.moveNodeList] at h
    by_cases hid : (n.id == node_id) = true
    · rw [if_pos hid] at h
      cases h
      rfl
    · rw [if_neg hid] at h
      cases hm : AppState.moveNodeList node_id x y rest with
      | none => rw [hm] at h; cases h
      | some r =>
        rw [hm] at h
        cases h
        simp only [List.map_cons]
        rw [ih r hm]

theorem mem_ids_congr {ns ns2 : List Node}
    (h : ns2.map Node.id = ns.map Node.id) (x : String) :
    (∃ n ∈ ns, n.id = x) → ∃ n ∈ ns2, n.id = x := by
  rintro ⟨n, hn, rfl⟩
  have hmem : n.id ∈ ns2.map Node.id := by
    rw [h]
    exact List.mem_map_of_mem _ hn
  obtain ⟨m, hm, hmx⟩ := List.mem_map.mp hmem
  exact ⟨m, hm, hmx⟩

/-- Invariant I1 is preserved by every API call. -/
theorem WF_applyOp (s : AppState) (op : Op) (h : WF s) : WF (applyOp s op) := by
  cases op with
  | getConfig => exact h
  | getState => exact h
  | getJson => exact h
  | getSettings => exact h
  | postNode newId tk =>
    dsimp only [applyOp]
    unfold AppState.add_node
    cases hd : dictGet s.node_types tk with
    | none => exact h
    | some td =>
      intro e he
      obtain ⟨⟨n1, hn1, h1⟩, ⟨n2, hn2, h2⟩⟩ := h e he
      exact ⟨⟨n1, List.mem_append_left _ hn1, h1⟩,
             ⟨n2, List.mem_append_left _ hn2, h2⟩⟩
  | patchNode nid label props =>
    dsimp only [applyOp]
    unfold AppState.update_node
    cases hm : AppState.updateNodeList nid label props s.nodes with
    | none => exact h
    | some ns =>
      intro e he
      have hids := updateNodeList_ids nid label props s.nodes ns hm
      obtain ⟨hf, ht⟩ := h e he
      exact ⟨mem_ids_congr hids _ hf, mem_ids_congr hids _ ht⟩
  | putNodePos nid x y =>
    dsimp only [applyOp]
    unfold AppState.move_node
    cases hm : AppState.moveNodeList nid x y s.nodes with
    | none => exact h
    | some ns =>
      intro e he
      have hids := moveNodeList_ids nid x y s.nodes ns hm
      obtain ⟨hf, ht⟩ := h e he
      exact ⟨mem_ids_congr hids _ hf, mem_ids_congr hids _ ht⟩
  | putNodeSelect nid => exact h
  | deselect => exact h
  | deleteNodeOp nid =>
    intro e he
    have hmem := List.mem_filter.mp he
    obtain ⟨he1, he2⟩ := hmem
    rw [Bool.and_eq_true, bne_iff_ne, bne_iff_ne] at he2
    obtain ⟨⟨n1, hn1, h1⟩, ⟨n2, hn2, h2⟩⟩ := h e he1
    refine ⟨⟨n1, List.mem_filter.mpr ⟨hn1, ?_⟩, h1⟩,
            ⟨n2, List.mem_filter.mpr ⟨hn2, ?_⟩, h2⟩⟩
    · rw [bne_iff_ne, h1]
      exact he2.1
    · rw [bne_iff_ne, h2]
      exact he2.2
  | postEdge newId f t =>
    dsimp only [applyOp]
    by_cases hok : AddEdgeOk s f t
    · rw [(add_edge_cases s newId f t).1 hok]
      intro e he
      rcases List.mem_append.mp he with he1 | he2
      · obtain ⟨⟨n1, hn1, h1⟩, ⟨n2, hn2, h2⟩⟩ := h e he1
        exact ⟨⟨n1, hn1, h1⟩, ⟨n2, hn2, h2⟩⟩
      · obtain ⟨fn, tn, hgf, hgt, -, -⟩ := hok
        obtain ⟨hfm, hfi⟩ := get_node_mem s f fn hgf
        obtain ⟨htm, hti⟩ := get_node_mem s t tn hgt
        rw [List.mem_singleton] at he2
        subst he2
        exact ⟨⟨fn, hfm, hfi⟩, ⟨tn, htm, hti⟩⟩
    · rw [(add_edge_cases s newId f t).2 hok |>.1]
      exact h
  | deleteEdgeOp eid =>
    intro e he
    exact h e (List.mem_filter.mp he).1
  | postSettings nt r => exact h
  | putType k b => exact h
  | delType k => exact h
  | putRules b => exact h

/-- C3: after `delete_node(id)` no edge whose endpoint equals `id`
remains; the selection is cleared exactly when it pointed at that node;
and invariant I1 — every edge's `from` and `to` reference nodes currently
present — is preserved by every operation. -/
theorem deleteNode_cascade_and_I1 :
    (∀ (s : AppState) (nid : String) (e : Edge),
      e ∈ (s.delete_node nid).edges → e.fromId ≠ nid ∧ e.toId ≠ nid) ∧
    (∀ (s : AppState) (nid : String),
      (s.delete_node nid).selected_id =
        if s.selected_id == some nid then none else s.selected_id) ∧
    (∀ (s : AppState) (op : Op), WF s → WF (applyOp s op)) := by
  refine ⟨?_, fun s nid => rfl, WF_applyOp⟩
  intro s nid e he
  have h2 := (List.mem_filter.mp he).2
  rw [Bool.and_eq_true, bne_iff_ne, bne_iff_ne] at h2
  exact h2

theorem deleteNode_cascade_and_I1_witness :
    ((Edge.mk "e1" "n1" "v1").fromId ≠ "zz" ∧
     (Edge.mk "e1" "n1" "v1").toId ≠ "zz") ∧
    (scState.delete_node "v1").selected_id =
      (if scState.selected_id == some "v1" then none
       else scState.selected_id) ∧
    WF (applyOp initState (Op.putNodeSelect "ghost")) :=
  ⟨deleteNode_cascade_and_I1.1 scState "zz" (Edge.mk "e1" "n1" "v1")
     (by rw [show (scState.delete_node "zz").edges =
        [Edge.mk "e1" "n1" "v1", Edge.mk "e2" "v1" "st1"] from rfl]
         decide),
   deleteNode_cascade_and_I1.2.1 scState "v1",
   deleteNode_cascade_and_I1.2.2 initState (Op.putNodeSelect "ghost")
     (fun e he => nomatch he)⟩

theorem updateNodeList_isSome (node_id : String) (label : Option String)
    (props : Option (List (String × Value))) (ns : List Node) :
    (AppState.updateNodeList node_id label props ns).isSome =
      ns.any (fun n => n.id == node_id) := by
  induction ns with
  | nil => rfl
  | cons n rest ih =>
    simp only [AppState.updateNodeList, List.any_cons]
    by_cases hid : (n.id == node_id) = true
    · rw [if_pos hid, hid]
      simp
    · rw [if_neg hid]
      have hfalse : (n.id == node_id) = false := by
        revert hid
        cases n.id == node_id <;> simp
      rw [hfalse]
      simp [ih]

theorem moveNodeList_isSome (node_id : String) (x y : Int) (ns : List Node) :
    (AppState.moveNodeList node_id x y ns).isSome =
      ns.any (fun n => n.id == node_id) := by
  induction ns with
  | nil => rfl
  | cons n rest ih =>
    simp only [AppState.moveNodeList, List.any_cons]
    by_cases hid : (n.id == node_id) = true
    · rw [if_pos hid, hid]
      simp
    · rw [if_neg hid]
      have hfalse : (n.id == node_id) = false := by
        revert hid
        cases n.id == node_id <;> simp
      rw [hfalse]
      simp [ih]

/-- Exactly when `opBumps` says so, a call adds one to the version. -/
theorem applyOp_v (s : AppState) (op : Op) :
    (applyOp s op).v = s.v + (if opBumps s op then 1 else 0) := by
  cases op with
  | getConfig => simp [applyOp, opBumps]
  | getState => simp [applyOp, opBumps]
  | getJson => simp [applyOp, opBumps]
  | getSettings => simp [applyOp, opBumps]
  | postNode newId tk =>
    dsimp only [applyOp, opBumps]
    unfold AppState.add_node
    cases hd : dictGet s.node_types tk with
    | none => simp
    | some td => simp
  | patchNode nid label props =>
    dsimp only [applyOp, opBumps]
    unfold AppState.update_node
    have hs := updateNodeList_isSome nid label props s.nodes
    cases hm : AppState.updateNodeList nid label props s.nodes with
    | none =>
      rw [hm] at hs
      rw [← hs]
      simp
    | some ns =>
      rw [hm] at hs
      rw [← hs]
      simp
  | putNodePos nid x y =>
    dsimp only [applyOp, opBumps]
    unfold AppState.move_node
    have hs := moveNodeList_isSome nid x y s.nodes
    cases hm : AppState.moveNodeList nid x y s.nodes with
    | none =>
      rw [hm] at hs
      rw [← hs]
      simp
    | some ns =>
      rw [hm] at hs
      rw [← hs]
      simp
  | putNodeSelect nid => simp [applyOp, opBumps, put_node_select]
  | deselect => simp [applyOp, opBumps, delete_select]
  | deleteNodeOp nid => simp [applyOp, opBumps, AppState.delete_node]
  | postEdge newId f t =>
    dsimp only [applyOp, opBumps]
    by_cases hok : AddEdgeOk s f t
    · rw [(add_edge_cases s newId f t).1 hok,
        (addEdgeOk_iff_bool s f t).mp hok]
      simp
    · rw [(add_edge_cases s newId f t).2 hok |>.1]
      have hb : addEdgeOkBool s f t = false := by
        cases hbb : addEdgeOkBool s f t
        · rfl
        · exact absurd ((addEdgeOk_iff_bool s f t).mpr hbb) hok
      rw [hb]
      simp
  | deleteEdgeOp eid => simp [applyOp, opBumps, AppState.delete_edge]
  | postSettings nt r => simp [applyOp, opBumps, AppState.import_config]
  | putType k b => simp [applyOp, opBumps, put_type]
  | delType k => simp [applyOp, opBumps, del_type]
  | putRules b => simp [applyOp, opBumps, put_rules]

theorem runOps_v (ops : List Op) : ∀ s : AppState,
    (runOps s ops).v = s.v + bumpCount s ops := by
  induction ops with
  | nil => intro s; simp [runOps, bumpCount]
  | cons op rest ih =>
    intro s
    simp only [runOps, bumpCount]
    rw [ih (applyOp s op), applyOp_v, Nat.add_assoc]

theorem applyOp_readonly (s : AppState) (op : Op)
    (h : isMutating op = false) : applyOp s op = s := by
  cases op <;> simp_all [isMutating, applyOp]

/-- C4 (amended): over any run from the initial state, `version` equals
the number of calls that actually bump it — deletes (even of unknown
ids), selection changes and configuration edits always bump; node
update/move bump only when the id exists; `addNode` bumps only when the
type key is known; `addEdge` bumps only when the edge is created — and
read-only calls leave the state untouched.  It does NOT count every
mutating call that was invoked. -/
theorem version_counts_bumping_calls :
    (∀ ops : List Op, (runOps initState ops).v = bumpCount initState ops) ∧
    (∀ (s : AppState) (op : Op), isMutating op = false → applyOp s op = s) := by
  constructor
  · intro ops
    have h := runOps_v ops initState
    rw [show initState.v = 0 from rfl] at h
    simpa using h
  · exact applyOp_readonly

theorem version_counts_bumping_calls_witness :
    (runOps initState scenarioOps).v = bumpCount initState scenarioOps ∧
    applyOp initState Op.getJson = initState :=
  ⟨version_counts_bumping_calls.1 scenarioOps,
   version_counts_bumping_calls.2 initState Op.getJson rfl⟩

/-- C4 counterexample: one invoked mutating call (an update of an unknown
node id) leaves `version` at 0, so `version` does not equal the count of
mutating calls invoked. -/
theorem version_not_attempt_count_cex :
    (runOps initState [Op.patchNode "x" none none]).v = 0 ∧
    mutatingCount [Op.patchNode "x" none none] = 1 ∧ (0 : Nat) ≠ 1 :=
  ⟨rfl, rfl, by decide⟩

theorem get_node_congr {s1 s2 : AppState} (h : s1.nodes = s2.nodes)
    (x : String) : s1.get_node x = s2.get_node x := by
  unfold AppState.get_node
  rw [h]

theorem toObjGo_congr {s1 s2 : AppState} (hn : s1.nodes = s2.nodes)
    (rec1 rec2 : Node → Option (List (String × Value)))
    (hrec : ∀ n, rec1 n = rec2 n) (node : Node) :
    ∀ (obj : List (String × Value)) (edges : List Edge),
      AppState.toObjGo s1 rec1 node obj edges =
        AppState.toObjGo s2 rec2 node obj edges := by
  intro obj edges
  induction edges generalizing obj with
  | nil => rfl
  | cons e rest ih =>
    simp only [AppState.toObjGo]
    by_cases hfrom : (e.fromId == node.id) = true
    · rw [if_pos hfrom, if_pos hfrom, get_node_congr hn e.toId]
      cases s2.get_node e.toId with
      | none => exact ih obj
      | some child =>
        dsimp only
        rw [hrec child]
        cases rec2 child with
        | none => rfl
        | some cobj => exact ih _
    · rw [if_neg hfrom, if_neg hfrom]
      exact ih obj

theorem to_obj_congr {s1 s2 : AppState} (hn : s1.nodes = s2.nodes)
    (he : s1.edges = s2.edges) :
    ∀ (fuel : Nat) (node : Node),
      AppState.to_obj s1 fuel node = AppState.to_obj s2 fuel node := by
  intro fuel
  induction fuel with
  | zero => intro node; rfl
  | succ fuel ih =>
    intro node
    simp only [AppState.to_obj]
    rw [he]
    exact toObjGo_congr hn _ _ ih node _ _

theorem roots_congr {s1 s2 : AppState} (hn : s1.nodes = s2.nodes)
    (he : s1.edges = s2.edges) : s1.roots = s2.roots := by
  unfold AppState.roots
  rw [hn, he]

theorem buildRoots_congr {s1 s2 : AppState} (hn : s1.nodes = s2.nodes)
    (he : s1.edges = s2.edges) (fuel : Nat) :
    ∀ (ns : List Node) (acc : List (String × Value)),
      AppState.buildRoots s1 fuel ns acc = AppState.buildRoots s2 fuel ns acc := by
  intro ns
  induction ns with
  | nil => intro acc; rfl
  | cons n rest ih =>
    intro acc
    simp only [AppState.buildRoots]
    rw [to_obj_congr hn he fuel n]
    cases AppState.to_obj s2 fuel n with
    | none => rfl
    | some obj => exact ih _

/-- C7: `build_json` is deterministic given the graph: it reads only the
node and edge lists, so any two states agreeing on those (whatever their
registry, rules, selection or version) produce the identical document at
every recursion depth; in particular re-invoking it without mutation
yields the identical output. -/
theorem buildDocument_deterministic (s1 s2 : AppState) (fuel : Nat)
    (hn : s1.nodes = s2.nodes) (he : s1.edges = s2.edges) :
    s1.build_json fuel = s2.build_json fuel := by
  unfold AppState.build_json
  rw [roots_congr hn he]
  exact buildRoots_congr hn he fuel s2.roots []

theorem buildDocument_deterministic_witness :
    scState.build_json 4 = (put_node_select scState "ghost").build_json 4 :=
  buildDocument_deterministic scState (put_node_select scState "ghost") 4
    rfl rfl

theorem get_node_exists (s : AppState) (b : String)
    (h : ∃ n ∈ s.nodes, n.id = b) : ∃ child, s.get_node b = some child := by
  unfold AppState.get_node
  obtain ⟨n, hn, hb⟩ := h
  cases hf : s.nodes.find? (fun m => m.id == b) with
  | some m => exact ⟨m, rfl⟩
  | none =>
    rw [List.find?_eq_none] at hf
    exact absurd (by rw [beq_iff_eq]; exact hb) (hf n hn)

theorem toObjGo_isSome (s : AppState)
    (rec : Node → Option (List (String × Value))) (node : Node) :
    ∀ (edges : List Edge) (obj : List (String × Value)),
      (∀ e ∈ edges, e.fromId = node.id → ∀ child,
        s.get_node e.toId = some child → (rec child).isSome = true) →
      (AppState.toObjGo s rec node obj edges).isSome = true := by
  intro edges
  induction edges with
  | nil => intro obj _; rfl
  | cons e rest ih =>
    intro obj hall
    simp only [AppState.toObjGo]
    by_cases hfrom : (e.fromId == node.id) = true
    · rw [if_pos hfrom]
      cases hg : s.get_node e.toId with
      | none =>
        exact ih obj (fun e' he' => hall e' (List.mem_cons_of_mem _ he'))
      | some child =>
        dsimp only
        have hsome := hall e (List.mem_cons_self _ _) (beq_iff_eq.mp hfrom)
          child hg
        cases hr : rec child with
        | none => rw [hr] at hsome; cases hsome
        | some cobj =>
          exact ih _ (fun e' he' => hall e' (List.mem_cons_of_mem _ he'))
    · rw [if_neg hfrom]
      exact ih obj (fun e' he' => hall e' (List.mem_cons_of_mem _ he'))

theorem toObjGo_none (s : AppState)
    (rec : Node → Option (List (String × Value))) (node : Node) :
    ∀ (edges : List Edge) (obj : List (String × Value)) (e : Edge)
      (child : Node), e ∈ edges → e.fromId = node.id →
      s.get_node e.toId = some child → rec child = none →
      AppState.toObjGo s rec node obj edges = none := by
  intro edges
  induction edges with
  | nil => intro obj e child he; cases he
  | cons e' rest ih =>
    intro obj e child he hef hg hrc
    simp only [AppState.toObjGo]
    rcases List.mem_cons.mp he with rfl | hrest
    · rw [if_pos (beq_iff_eq.mpr hef), hg]
      dsimp only
      rw [hrc]
    · by_cases hfrom : (e'.fromId == node.id) = true
      · rw [if_pos hfrom]
        cases hg' : s.get_node e'.toId with
        | none => exact ih obj e child hrest hef hg hrc
        | some child' =>
          dsimp only
          cases hr' : rec child' with
          | none => rfl
          | some cobj' => exact ih _ e child hrest hef hg hrc
      · rw [if_neg hfrom]
        exact ih obj e child hrest hef hg hrc

/-- A node reached by `get_node` on a cycle member can never be fully
serialized: `to_obj` returns `none` at every recursion depth. -/
theorem to_obj_cycle_none (s : AppState) :
    ∀ (fuel : Nat) (a : String) (node : Node),
      Relation.TransGen (EdgeStep s) a a → s.get_node a = some node →
      AppState.to_obj s fuel node = none := by
  intro fuel
  induction fuel with
  | zero => intro a node _ _; rfl
  | succ fuel ih =>
    intro a node hcyc hget
    obtain ⟨-, hida⟩ := get_node_mem s a node hget
    obtain ⟨b, hstep, hrt⟩ := Relation.TransGen.head'_iff.mp hcyc
    have hbcyc : Relation.TransGen (EdgeStep s) b b :=
      Relation.TransGen.trans_right hrt (Relation.TransGen.single hstep)
    obtain ⟨⟨e, he, hef, het⟩, hex⟩ := hstep
    obtain ⟨child, hgchild⟩ := get_node_exists s b hex
    have hnone := ih b child hbcyc hgchild
    simp only [AppState.to_obj]
    exact toObjGo_none s _ node s.edges _ e child he
      (by rw [hef, hida]) (by rw [het]; exact hgchild) hnone

theorem to_obj_isSome_of_rank (s : AppState) (r : String → Nat)
    (hr : ∀ a b, EdgeStep s a b → r b < r a) :
    ∀ (fuel : Nat) (node : Node), r node.id < fuel →
      (AppState.to_obj s fuel node).isSome = true := by
  intro fuel
  induction fuel with
  | zero => intro node h; exact absurd h (Nat.not_lt_zero _)
  | succ fuel ih =>
    intro node hlt
    simp only [AppState.to_obj]
    apply toObjGo_isSome
    intro e he hef child hg
    obtain ⟨hcm, hcid⟩ := get_node_mem s e.toId child hg
    have hstep : EdgeStep s node.id child.id :=
      ⟨⟨e, he, hef, hcid.symm⟩, ⟨child, hcm, rfl⟩⟩
    have hdec := hr node.id child.id hstep
    exact ih child (by omega)

theorem buildRoots_isSome (s : AppState) (fuel : Nat) :
    ∀ (ns : List Node) (acc : List (String × Value)),
      (∀ n ∈ ns, (AppState.to_obj s fuel n).isSome = true) →
      (AppState.buildRoots s fuel ns acc).isSome = true := by
  intro ns
  induction ns with
  | nil => intro acc _; rfl
  | cons n rest ih =>
    intro acc hall
    simp only [AppState.buildRoots]
    have hsome := hall n (List.mem_cons_self _ _)
    cases ho : AppState.to_obj s fuel n with
    | none => rw [ho] at hsome; cases hsome
    | some obj =>
      exact ih _ (fun m hm => hall m (List.mem_cons_of_mem _ hm))

theorem edgeStep_target_mem (s : AppState) {a b : String}
    (h : EdgeStep s a b) : b ∈ s.nodes.map Node.id := by
  obtain ⟨-, n, hn, hid⟩ := h
  exact List.mem_map.mpr ⟨n, hn, hid⟩

theorem transGen_target_mem (s : AppState) {a b : String}
    (h : Relation.TransGen (EdgeStep s) a b) : b ∈ s.nodes.map Node.id := by
  induction h with
  | single hstep => exact edgeStep_target_mem s hstep
  | tail _ hstep _ => exact edgeStep_target_mem s hstep

theorem reach_finite (s : AppState) (a : String) :
    {b | Relation.TransGen (EdgeStep s) a b}.Finite :=
  Set.Finite.subset (List.finite_toSet (s.nodes.map Node.id))
    (fun _ hb => transGen_target_mem s hb)

theorem reach_lt (s : AppState)
    (hnc : ¬ ∃ n, Relation.TransGen (EdgeStep s) n n) {a b : String}
    (hstep : EdgeStep s a b) :
    Set.ncard {c | Relation.TransGen (EdgeStep s) b c} <
      Set.ncard {c | Relation.TransGen (EdgeStep s) a c} := by
  apply Set.ncard_lt_ncard
  · rw [Set.ssubset_def]
    constructor
    · intro c hc
      exact Relation.TransGen.head hstep hc
    · intro hsup
      have hmem : b ∈ {c | Relation.TransGen (EdgeStep s) a c} :=
        Relation.TransGen.single hstep
      exact hnc ⟨b, hsup hmem⟩
  · exact reach_finite s a

theorem reach_le (s : AppState) (a : String) :
    Set.ncard {c | Relation.TransGen (EdgeStep s) a c} ≤ s.nodes.length := by
  have h1 : Set.ncard {c | Relation.TransGen (EdgeStep s) a c} ≤
      Set.ncard {x | x ∈ s.nodes.map Node.id} :=
    Set.ncard_le_ncard (fun _ hb => transGen_target_mem s hb)
      (List.finite_toSet _)
  have h2 : Set.ncard {x | x ∈ s.nodes.map Node.id} ≤ s.nodes.length := by
    rw [← List.coe_toFinset, Set.ncard_coe_Finset]
    calc (s.nodes.map Node.id).toFinset.card
        ≤ (s.nodes.map Node.id).length := List.toFinset_card_le _
      _ = s.nodes.length := List.length_map _ _
  omega

/-- C8 (amended): no cycle detection exists.  When the edge set is
acyclic — no node reaches itself through the serializer's step relation —
the recursion terminates for every node within depth (number of nodes)+1,
so `build_json` produces a document; and `to_obj` invoked on any node
lying on a cycle of existing nodes never terminates (returns `none` at
every depth).  `build_json` itself, however, only recurses from roots, so
a cycle no root reaches does not make it diverge (see the
counterexample). -/
theorem serializer_cycle_behavior :
    (∀ s : AppState, (¬ ∃ n, Relation.TransGen (EdgeStep s) n n) →
      (s.build_json (s.nodes.length + 1)).isSome = true) ∧
    (∀ (s : AppState) (a : String) (node : Node) (fuel : Nat),
      Relation.TransGen (EdgeStep s) a a → s.get_node a = some node →
      AppState.to_obj s fuel node = none) := by
  constructor
  · intro s hnc
    unfold AppState.build_json
    apply buildRoots_isSome
    intro n _
    apply to_obj_isSome_of_rank s
      (fun x => Set.ncard {c | Relation.TransGen (EdgeStep s) x c})
      (fun x y hstep => reach_lt s hnc hstep)
    have := reach_le s n.id
    omega
  · intro s a node fuel hcyc hget
    exact to_obj_cycle_none s fuel a node hcyc hget

/-- The isolated two-node cycle of `cyc2State`: a ⇄ b. -/
theorem cyc2State_cycle :
    Relation.TransGen (EdgeStep cyc2State) "a" "a" := by
  have hab : EdgeStep cyc2State "a" "b" :=
    ⟨⟨Edge.mk "e1" "a" "b", List.mem_cons_self _ _, rfl, rfl⟩,
     ⟨⟨"b", "t", "B", 0, 0, []⟩,
      List.mem_cons_of_mem _ (List.mem_cons_self _ _), rfl⟩⟩
  have hba : EdgeStep cyc2State "b" "a" :=
    ⟨⟨Edge.mk "e2" "b" "a",
      List.mem_cons_of_mem _ (List.mem_cons_self _ _), rfl, rfl⟩,
     ⟨⟨"a", "t", "A", 0, 0, []⟩, List.mem_cons_self _ _, rfl⟩⟩
  exact Relation.TransGen.tail (Relation.TransGen.single hab) hba

/-- C8 counterexample: the claim "if the edges formed a cycle the
recursion would not terminate" fails as stated — `cyc2State`'s edges form
a cycle, yet both its nodes have incoming edges, so the root list is
empty and `build_json` terminates immediately with the empty document at
every depth. -/
theorem cycle_yet_terminating_cex :
    Relation.TransGen (EdgeStep cyc2State) "a" "a" ∧
    (∀ fuel, cyc2State.build_json fuel = some []) :=
  ⟨cyc2State_cycle, fun _ => rfl⟩

theorem serializer_cycle_behavior_witness :
    (nvState.build_json (nvState.nodes.length + 1)).isSome = true ∧
    AppState.to_obj cyc2State 3 ⟨"a", "t", "A", 0, 0, []⟩ = none :=
  ⟨serializer_cycle_behavior.1 nvState
    (by
      rintro ⟨n, h⟩
      cases h with
      | single hstep =>
        obtain ⟨⟨e, he, -, -⟩, -⟩ := hstep
        rw [show nvState.edges = [] from rfl] at he
        cases he
      | tail ht hstep =>
        obtain ⟨⟨e, he, -, -⟩, -⟩ := hstep
        rw [show nvState.edges = [] from rfl] at he
        cases he),
   serializer_cycle_behavior.2 cyc2State "a" ⟨"a", "t", "A", 0, 0, []⟩ 3
     cyc2State_cycle rfl⟩

theorem dictMem_iff {α : Type} (d : List (String × α)) (k : String) :
    dictMem d k = true ↔ k ∈ d.map Prod.fst := by
  unfold dictMem
  rw [List.any_eq_true]
  constructor
  · rintro ⟨p, hp, hk⟩
    rw [beq_iff_eq] at hk
    exact List.mem_map.mpr ⟨p, hp, hk⟩
  · intro hk
    obtain ⟨p, hp, hpk⟩ := List.mem_map.mp hk
    exact ⟨p, hp, beq_iff_eq.mpr hpk⟩

theorem dictMem_false_of_not_mem {α : Type} {d : List (String × α)}
    {k : String} (h : k ∉ d.map Prod.fst) : dictMem d k = false := by
  cases hm : dictMem d k
  · rfl
  · exact absurd ((dictMem_iff d k).mp hm) h

theorem dictInsert_fresh {α : Type} (d : List (String × α)) (k : String)
    (v : α) (h : dictMem d k = false) : dictInsert d k v = d ++ [(k, v)] := by
  unfold dictInsert
  rw [h]
  simp

theorem mem_dictInsert {α : Type} {d : List (String × α)} {k : String}
    {v : α} {p : String × α} (h : p ∈ dictInsert d k v) :
    p ∈ d ∨ p = (k, v) := by
  unfold dictInsert at h
  by_cases hm : dictMem d k = true
  · rw [if_pos hm] at h
    obtain ⟨q, hq, hpq⟩ := List.mem_map.mp h
    by_cases hqk : (q.1 == k) = true
    · rw [if_pos hqk] at hpq
      right
      exact hpq.symm
    · rw [if_neg hqk] at hpq
      left
      exact hpq ▸ hq
  · rw [if_neg hm] at h
    rcases List.mem_append.mp h with h1 | h2
    · left; exact h1
    · right; exact List.mem_singleton.mp h2

theorem dictUpdate_fresh {α : Type} :
    ∀ (patch d : List (String × α)),
      (d.map Prod.fst ++ patch.map Prod.fst).Nodup →
      dictUpdate d patch = d ++ patch := by
  intro patch
  induction patch with
  | nil => intro d _; simp [dictUpdate]
  | cons q rest ih =>
    intro d hnd
    have hsplit := List.nodup_append.mp hnd
    have hq1 : q.1 ∉ d.map Prod.fst := fun hmem =>
      hsplit.2.2 hmem (List.mem_cons_self _ _)
    have hfresh : dictMem d q.1 = false := dictMem_false_of_not_mem hq1
    simp only [dictUpdate, List.foldl_cons]
    rw [dictInsert_fresh d q.1 q.2 hfresh]
    have hnd2 : ((d ++ [(q.1, q.2)]).map Prod.fst ++ rest.map Prod.fst).Nodup := by
      rw [List.map_append]
      rw [List.append_assoc]
      simpa using hnd
    have hrec := ih (d ++ [(q.1, q.2)]) hnd2
    rw [show dictUpdate (d ++ [(q.1, q.2)]) rest =
      rest.foldl (fun acc p => dictInsert acc p.1 p.2) (d ++ [(q.1, q.2)])
      from rfl] at hrec
    rw [hrec, List.append_assoc]
    rfl

theorem toObjGo_eq_append (s : AppState)
    (rec : Node → Option (List (String × Value))) (node : Node) :
    ∀ (edges : List Edge) (obj ces : List (String × Value)),
      childEntries s rec node edges = some ces →
      (obj.map Prod.fst ++ ces.map Prod.fst).Nodup →
      AppState.toObjGo s rec node obj edges = some (obj ++ ces) := by
  intro edges
  induction edges with
  | nil =>
    intro obj ces hce hnd
    cases hce
    simp [AppState.toObjGo]
  | cons e rest ih =>
    intro obj ces hce hnd
    simp only [childEntries] at hce
    simp only [AppState.toObjGo]
    by_cases hfrom : (e.fromId == node.id) = true
    · rw [if_pos hfrom] at hce ⊢
      cases hg : s.get_node e.toId with
      | none =>
        rw [hg] at hce
        exact ih obj ces hce hnd
      | some child =>
        rw [hg] at hce
        dsimp only at hce ⊢
        cases hr : rec child with
        | none => rw [hr] at hce; cases hce
        | some cobj =>
          rw [hr] at hce
          cases hrest : childEntries s rec node rest with
          | none => rw [hrest] at hce; cases hce
          | some ces' =>
            rw [hrest] at hce
            simp only [Option.map_some', Option.some_inj] at hce
            subst hce
            have hsplit := List.nodup_append.mp hnd
            have hlfree : child.label ∉ obj.map Prod.fst := fun hmem =>
              hsplit.2.2 hmem (List.mem_cons_self _ _)
            dsimp only
            rw [dictInsert_fresh obj child.label (Value.obj cobj)
              (dictMem_false_of_not_mem hlfree)]
            have hnd2 : ((obj ++ [(child.label, Value.obj cobj)]).map Prod.fst ++
                ces'.map Prod.fst).Nodup := by
              rw [List.map_append, List.append_assoc]
              simpa using hnd
            have := ih (obj ++ [(child.label, Value.obj cobj)]) ces' hrest hnd2
            rw [this, List.append_assoc]
            rfl
    · rw [if_neg hfrom] at hce ⊢
      exact ih obj ces hce hnd

/-- The shape of a serialized node object when no name collides: the type
field first, then the stored properties, then the child entries. -/
theorem to_obj_shape (s : AppState) (fuel : Nat) (node : Node)
    (ces : List (String × Value))
    (hce : childEntries s (fun c => AppState.to_obj s fuel c) node s.edges =
      some ces)
    (hnd : ("type" :: (node.props.map Prod.fst ++ ces.map Prod.fst)).Nodup) :
    AppState.to_obj s (fuel + 1) node =
      some (("type", Value.str node.type) :: (node.props ++ ces)) := by
  simp only [AppState.to_obj]
  have hnd' : (("type" :: node.props.map Prod.fst) ++ ces.map Prod.fst).Nodup := by
    simpa using hnd
  have hbase : dictUpdate [("type", Value.str node.type)] node.props =
      ("type", Value.str node.type) :: node.props := by
    have hprefix : ([("type", Value.str node.type)].map Prod.fst ++
        node.props.map Prod.fst).Nodup := by
      have hsub : ("type" :: node.props.map Prod.fst).Sublist
          (("type" :: node.props.map Prod.fst) ++ ces.map Prod.fst) :=
        List.sublist_append_left _ _
      simpa using hnd'.sublist hsub
    exact dictUpdate_fresh node.props [("type", Value.str node.type)] hprefix
  rw [hbase]
  exact toObjGo_eq_append s _ node s.edges
    (("type", Value.str node.type) :: node.props) ces hce (by simpa using hnd')

theorem buildRoots_entries (s : AppState) (fuel : Nat) :
    ∀ (ns : List Node) (acc doc : List (String × Value)),
      AppState.buildRoots s fuel ns acc = some doc →
      (acc.map Prod.fst ++ ns.map Node.label).Nodup →
      ∃ ent, doc = acc ++ ent ∧
        List.Forall₂ (fun (r : Node) (p : String × Value) =>
          p.1 = r.label ∧ ∃ o, AppState.to_obj s fuel r = some o ∧
            p.2 = Value.obj o) ns ent := by
  intro ns
  induction ns with
  | nil =>
    intro acc doc h _
    cases h
    exact ⟨[], by simp, List.Forall₂.nil⟩
  | cons n rest ih =>
    intro acc doc h hnd
    simp only [AppState.buildRoots] at h
    cases ho : AppState.to_obj s fuel n with
    | none => rw [ho] at h; cases h
    | some obj =>
      rw [ho] at h
      dsimp only at h
      have hsplit := List.nodup_append.mp hnd
      have hlfree : n.label ∉ acc.map Prod.fst := fun hmem =>
        hsplit.2.2 hmem (List.mem_cons_self _ _)
      rw [dictInsert_fresh acc n.label (Value.obj obj)
        (dictMem_false_of_not_mem hlfree)] at h
      have hnd2 : ((acc ++ [(n.label, Value.obj obj)]).map Prod.fst ++
          rest.map Node.label).Nodup := by
        rw [List.map_append, List.append_assoc]
        simpa using hnd
      obtain ⟨ent, hdoc, hfa⟩ := ih (acc ++ [(n.label, Value.obj obj)]) doc h hnd2
      refine ⟨(n.label, Value.obj obj) :: ent, ?_,
        List.Forall₂.cons ⟨rfl, obj, ho, rfl⟩ hfa⟩
      rw [hdoc, List.append_assoc]
      rfl

theorem buildRoots_mem (s : AppState) (fuel : Nat) :
    ∀ (ns : List Node) (acc doc : List (String × Value)),
      AppState.buildRoots s fuel ns acc = some doc →
      ∀ p ∈ doc, p ∈ acc ∨ ∃ r ∈ ns, p.1 = r.label ∧
        ∃ o, AppState.to_obj s fuel r = some o ∧ p.2 = Value.obj o := by
  intro ns
  induction ns with
  | nil =>
    intro acc doc h p hp
    cases h
    exact Or.inl hp
  | cons n rest ih =>
    intro acc doc h p hp
    simp only [AppState.buildRoots] at h
    cases ho : AppState.to_obj s fuel n with
    | none => rw [ho] at h; cases h
    | some obj =>
      rw [ho] at h
      rcases ih _ _ h p hp with hacc | ⟨r, hr, hlab, o, hoo, hpo⟩
      · rcases mem_dictInsert hacc with h1 | h2
        · exact Or.inl h1
        · refine Or.inr ⟨n, List.mem_cons_self _ _, ?_, obj, ho, ?_⟩
          · rw [h2]
          · rw [h2]
      · exact Or.inr ⟨r, List.mem_cons_of_mem _ hr, hlab, o, hoo, hpo⟩

/-- C2 (amended): every top-level entry of the document is the label and
object of some root (a node with zero incoming edges) — so a node with an
incoming edge never appears at top level — and when the root labels are
pairwise distinct the document lists exactly the roots' labels with their
objects, in node insertion order.  Each node's object is the `type` field
first, then one entry per stored property, then one nested entry per
outgoing edge keyed by the child's label in edge-creation order, PROVIDED
the name `type`, the property names and the child labels are pairwise
distinct; a colliding name (such as the default storage schema's property
literally called `type`) instead overwrites the earlier entry in place, so
the `type` field need not hold the type key (see the counterexample). -/
theorem buildDocument_shape :
    (∀ (s : AppState) (fuel : Nat) (doc : List (String × Value)),
      s.build_json fuel = some doc →
      ((s.roots.map Node.label).Nodup →
        List.Forall₂ (fun (r : Node) (p : String × Value) =>
          p.1 = r.label ∧ ∃ o, AppState.to_obj s fuel r = some o ∧
            p.2 = Value.obj o) s.roots doc) ∧
      (∀ p ∈ doc, ∃ r ∈ s.roots, p.1 = r.label ∧
        ∃ o, AppState.to_obj s fuel r = some o ∧ p.2 = Value.obj o)) ∧
    (∀ (s : AppState) (fuel : Nat) (node : Node)
      (ces : List (String × Value)),
      childEntries s (fun c => AppState.to_obj s fuel c) node s.edges =
        some ces →
      ("type" :: (node.props.map Prod.fst ++ ces.map Prod.fst)).Nodup →
      AppState.to_obj s (fuel + 1) node =
        some (("type", Value.str node.type) :: (node.props ++ ces))) := by
  refine ⟨?_, to_obj_shape⟩
  intro s fuel doc hdoc
  constructor
  · intro hnd
    obtain ⟨ent, hd, hfa⟩ := buildRoots_entries s fuel s.roots [] doc hdoc
      (by simpa using hnd)
    rw [hd]
    simpa using hfa
  · intro p hp
    rcases buildRoots_mem s fuel s.roots [] doc hdoc p hp with hacc | h
    · cases hacc
    · exact h

/-- C2 counterexample: the single root of `stOnlyState` is a node of type
key "storage", but its object's distinguished `type` field holds the
stored property value "SSD", not the type key — the storage schema's
property named `type` overwrites it during `obj.update(node["props"])`. -/
theorem buildDocument_type_overwritten_cex :
    stOnlyState.roots.map (fun n => n.type) = ["storage"] ∧
    stOnlyState.build_json 1 = some [("Storage 1", Value.obj
      [("type", Value.str "SSD"), ("size", Value.str "100 GB"),
       ("replication", Value.str "none")])] ∧
    Value.str "SSD" ≠ Value.str "storage" := by
  refine ⟨rfl, rfl, ?_⟩
  intro h
  injection h with h2
  exact absurd h2 (by decide)

theorem buildDocument_shape_witness :
    List.Forall₂ (fun (r : Node) (p : String × Value) =>
      p.1 = r.label ∧ ∃ o, AppState.to_obj stOnlyState 1 r = some o ∧
        p.2 = Value.obj o) stOnlyState.roots
      [("Storage 1", Value.obj
        [("type", Value.str "SSD"), ("size", Value.str "100 GB"),
         ("replication", Value.str "none")])] ∧
    (∀ p ∈ [("Storage 1", Value.obj
        [("type", Value.str "SSD"), ("size", Value.str "100 GB"),
         ("replication", Value.str "none")])],
      ∃ r ∈ stOnlyState.roots, p.1 = r.label ∧
        ∃ o, AppState.to_obj stOnlyState 1 r = some o ∧ p.2 = Value.obj o) ∧
    AppState.to_obj nvState 1
        ⟨"n1", "network", "Network 1", 180, 100,
         [("cidr", Value.str "10.0.0.0/24"), ("vlan", Value.str ""),
          ("gateway", Value.str ""), ("zone", Value.str "private")]⟩ =
      some (("type", Value.str "network") ::
        ([("cidr", Value.str "10.0.0.0/24"), ("vlan", Value.str ""),
          ("gateway", Value.str ""), ("zone", Value.str "private")] ++ [])) :=
  ⟨(buildDocument_shape.1 stOnlyState 1 _ rfl).1 (by decide),
   (buildDocument_shape.1 stOnlyState 1 _ rfl).2,
   buildDocument_shape.2 nvState 0 _ [] rfl (by decide)⟩

theorem delType_purges_rules_witness :
    dictGet (del_type initState "vm").node_types "vm" = none ∧
    dictGet (del_type initState "vm").rules "vm" = none ∧
    "vm" ∉ (("network", ([] : List String)) : String × List String).2 ∧
    (del_type initState "vm").nodes = initState.nodes ∧
    (del_type initState "vm").edges = initState.edges :=
  ⟨(delType_purges_rules initState "vm").1,
   (delType_purges_rules initState "vm").2.1,
   (delType_purges_rules initState "vm").2.2.1 ("network", []) (by decide),
   (delType_purges_rules initState "vm").2.2.2.1,
   (delType_purges_rules initState "vm").2.2.2.2⟩
